import Mathlib

/-!
# Verification of the Pinterest auto-confirm mailer (`src/app.py`)

A shallow embedding of the pure logic of `app.py` together with a
small-step model of its effectful parts (message processing, message
filing, the polling worker loop).  Python strings are modelled as Lean
`String`s / `List Char`; Python library functions used by the code
(`urllib.parse.urlparse`, `parse_qs`, `unquote`, `str.lower`, substring
`in`, `re.finditer` of the bare-URL pattern) are embedded at the level
of ASCII character sequences (CPython decodes consecutive `%XX` escape
bytes as UTF-8; the embedding emits each decoded byte as one character,
which agrees with CPython on all ASCII data).  Effectful library calls
(IMAP, HTTP) are modelled by oracles describing their outcomes, and the
control flow around them is embedded faithfully.
-/

namespace AutoConfirm

/-! ## String primitives -/

/-- Python `s.lower()` (ASCII). -/
def pyLower (s : String) : String := String.mk (s.toList.map Char.toLower)

/-- Python substring test `needle in hay`. -/
def strContains (hay needle : String) : Bool :=
  decide (needle.toList <:+: hay.toList)

/-- Split a character list at the first occurrence of `c`:
`some (before, after)` when `c` occurs, `none` otherwise.
Used to embed Python `s.split(c, 1)` and the `'c' in s` guards of
`urllib.parse.urlsplit`. -/
def breakAt (c : Char) : List Char → Option (List Char × List Char)
  | [] => none
  | x :: xs =>
    if x = c then some ([], xs)
    else (breakAt c xs).map (fun p => (x :: p.1, p.2))

/-! ## `urllib.parse.unquote`, embedded at the byte level -/

/-- Hex digit test, as accepted by `urllib.parse.unquote`. -/
def isHexDig (c : Char) : Bool :=
  ('0' ≤ c ∧ c ≤ '9') ∨ ('a' ≤ c ∧ c ≤ 'f') ∨ ('A' ≤ c ∧ c ≤ 'F')

/-- Numeric value of a hex digit. -/
def hexVal (c : Char) : Nat :=
  if '0' ≤ c ∧ c ≤ '9' then c.toNat - '0'.toNat
  else if 'a' ≤ c ∧ c ≤ 'f' then c.toNat - 'a'.toNat + 10
  else if 'A' ≤ c ∧ c ≤ 'F' then c.toNat - 'A'.toNat + 10
  else 0

/-- `urllib.parse.unquote` on a character list: each `%XY` with two hex
digits becomes the byte `16*X+Y`; a `%` not followed by two hex digits
is kept literally. -/
def unquoteList : List Char → List Char
  | '%' :: a :: b :: rest =>
    if isHexDig a ∧ isHexDig b then
      Char.ofNat (16 * hexVal a + hexVal b) :: unquoteList rest
    else
      '%' :: unquoteList (a :: b :: rest)
  | c :: rest => c :: unquoteList rest
  | [] => []

/-- `urllib.parse.unquote` on strings. -/
def unquote (s : String) : String := String.mk (unquoteList s.toList)

/-! ## `urllib.parse.parse_qs` (the part `app.py` uses) -/

/-- Python `s.replace('+', ' ')`, applied by `parse_qsl` before
unquoting. -/
def plusToSpace (s : String) : String :=
  String.mk (s.toList.map (fun c => if c = '+' then ' ' else c))

/-- Python `s.split('&')` on a character list. -/
def splitAmp : List Char → List (List Char)
  | [] => [[]]
  | c :: rest =>
    let r := splitAmp rest
    if c = '&' then [] :: r
    else (c :: r.headI) :: r.tail

/-- CPython `urllib.parse.parse_qsl` with default arguments
(`keep_blank_values=False`, `strict_parsing=False`, separator `&`):
split the query on `&`, skip empty chunks, skip chunks without `=`,
skip chunks whose value is empty, and `+`-then-percent-decode both name
and value of the rest, in order. -/
def parse_qsl (qs : String) : List (String × String) :=
  let chunks := if qs = "" then [] else (splitAmp qs.toList).map String.mk
  chunks.filterMap fun nv =>
    if nv = "" then none
    else
      match breakAt '=' nv.toList with
      | none => none
      | some (n, v) =>
        if v = [] then none
        else
          some (unquote (plusToSpace (String.mk n)),
                unquote (plusToSpace (String.mk v)))

/-- `parse_qs(q)['target'][0]` when `'target' in parse_qs(q)`:
`parse_qs` groups `parse_qsl` pairs by name in order, so the first
value listed under a name is the value of the first pair carrying it. -/
def firstValueOf (pairs : List (String × String)) (name : String) :
    Option String :=
  (pairs.find? (fun p => p.1 = name)).map (fun p => p.2)

/-! ## `urllib.parse.urlparse`: the query component and the error path -/

/-- Characters allowed in a URL scheme (`urllib.parse.scheme_chars`). -/
def schemeChar (c : Char) : Bool :=
  c.isAlpha ∨ c.isDigit ∨ c = '+' ∨ c = '-' ∨ c = '.'

/-- CPython `urlsplit` first deletes ASCII tab, CR and LF from the URL. -/
def removeUnsafe (s : List Char) : List Char :=
  s.filter (fun c => ¬ (c = '\t' ∨ c = '\r' ∨ c = '\n'))

/-- CPython `urlsplit` scheme splitting: when the URL has a `:` at a
positive position, its first character is an ASCII letter and every
character before the `:` is a scheme character, drop everything up to
and including the `:`. -/
def stripScheme (s : List Char) : List Char :=
  match breakAt ':' s with
  | none => s
  | some (pre, post) =>
    match pre with
    | [] => s
    | c0 :: _ => if c0.isAlpha ∧ pre.all schemeChar then post else s

/-- After netloc removal: CPython `urlsplit` splits the fragment at the
first `#`, then the query at the first `?` of what precedes it. -/
def queryPart (s : List Char) : String :=
  let beforeFrag := match breakAt '#' s with
    | some (a, _) => a
    | none => s
  match breakAt '?' beforeFrag with
  | some (_, q) => String.mk q
  | none => ""

/-- The query component of `urllib.parse.urlparse(href)`, with the
`ValueError("Invalid IPv6 URL")` raised on a netloc holding `[` without
`]` (or `]` without `[`) embedded as `Except.error`.  (Finer bracketed-
host validation of newer CPython is not modelled; every modelled error
is one `urlparse` raises.) -/
def urlparseQuery (href : String) : Except String String :=
  let u := stripScheme (removeUnsafe href.toList)
  if u.take 2 = ['/', '/'] then
    let rest := u.drop 2
    let netloc := rest.takeWhile (fun c => ¬ (c = '/' ∨ c = '?' ∨ c = '#'))
    if (netloc.elem '[' ∧ ¬ netloc.elem ']') ∨
       (netloc.elem ']' ∧ ¬ netloc.elem '[') then
      Except.error "Invalid IPv6 URL"
    else
      Except.ok (queryPart (rest.drop netloc.length))
  else
    Except.ok (queryPart u)

/-! ## `decode_target_from_href` (`src/app.py` lines 97-112) -/

/-- The decode loop of `decode_target_from_href`:
`for _ in range(n): new = unquote(target); if new == target: break;
target = new`. -/
def unquoteIter : Nat → String → String
  | 0, t => t
  | n + 1, t =>
    let new := unquote t
    if new = t then t else unquoteIter n new

/-- `decode_target_from_href(href)` (`src/app.py:97-112`): parse the
URL, read the first `target` query value, unquote it up to 4 more
times; on a missing `target` or a parse error return `href`. -/
def decode_target_from_href (href : String) : String :=
  match urlparseQuery href with
  | Except.error _ => href
  | Except.ok q =>
    match firstValueOf (parse_qsl q) "target" with
    | some v => unquoteIter 4 v
    | none => href

/-! ## `extract_confirm_links` (`src/app.py` lines 80-95)

The HTML document is abstracted as the raw text plus the hrefs of its
anchor elements (`soup.find_all('a', href=True)`) in document order;
the BeautifulSoup parse itself is not modelled. -/

/-- An HTML document: its raw text and the `href` values of its anchors
carrying an `href` attribute, in document order. -/
structure Html where
  anchors : List String
  text : String

/-- A well-formed abstraction: an empty document has no anchors (they
are parsed out of the text). -/
def Html.wf (h : Html) : Prop := h.text = "" → h.anchors = []

/-- The anchor filter of `extract_confirm_links` (`src/app.py:87`):
`'/email/click/' in href.lower() or any(k in href.lower() for k in
('confirm', 'verify', 'autologin', 'activate'))`. -/
def anchorTest (href : String) : Bool :=
  strContains (pyLower href) "/email/click/" ∨
    ["confirm", "verify", "autologin", "activate"].any
      (fun k => strContains (pyLower href) k)

/-- The bare-URL filter of the fallback scan (`src/app.py:93`):
`any(x in url.lower() for x in ('/email/click/', 'confirm', 'verify',
'autologin'))`. -/
def bareUrlTest (url : String) : Bool :=
  ["/email/click/", "confirm", "verify", "autologin"].any
    (fun x => strContains (pyLower url) x)

/-- A character matched by `[^\s"\x27>]` of the bare-URL pattern
(Python `\s` on ASCII text). -/
def urlChar (c : Char) : Bool :=
  ¬ (c = ' ' ∨ c = '\t' ∨ c = '\n' ∨ c = '\r' ∨
     c = '\x0b' ∨ c = '\x0c' ∨ c = '"' ∨ c = '\x27' ∨ c = '>')

/-- A match of `https?://[^\s"\x27>]+` at the head of `cs`:
`some (match, rest)` with `rest` the characters after the match.  The
regex tries the `s` alternative first; the character class must match
at least once. -/
def urlMatchHere (cs : List Char) : Option (String × List Char) :=
  let attempt := fun (scheme : List Char) (after : List Char) =>
    let run := after.takeWhile urlChar
    if run = [] then none
    else some (String.mk (scheme ++ run), after.dropWhile urlChar)
  if cs.take 8 = "https://".toList then
    attempt "https://".toList (cs.drop 8)
  else if cs.take 7 = "http://".toList then
    attempt "http://".toList (cs.drop 7)
  else none

/-- `re.finditer(r'https?://[^\s"\x27>]+', html)`: scan left to right,
taking non-overlapping matches.  Fuel is the list length (each step
consumes at least one character). -/
def findUrlsAux : Nat → List Char → List String
  | 0, _ => []
  | _ + 1, [] => []
  | fuel + 1, c :: rest =>
    match urlMatchHere (c :: rest) with
    | some (url, rest2) => url :: findUrlsAux fuel rest2
    | none => findUrlsAux fuel rest

/-- All matches of the bare-URL pattern in `s`, in order. -/
def findUrls (s : String) : List String :=
  findUrlsAux s.toList.length s.toList

/-- `extract_confirm_links(html)` (`src/app.py:80-95`): empty input
gives no links; otherwise keep the anchors' hrefs passing
`anchorTest`, and when none passes, fall back to the bare URLs of the
raw text passing `bareUrlTest`. -/
def extract_confirm_links (h : Html) : List String :=
  if h.text = "" then []
  else
    let links := h.anchors.filter anchorTest
    if links = [] then (findUrls h.text).filter bareUrlTest
    else links

/-! ## `call_url` (`src/app.py` lines 114-122)

The `requests.get` call is an oracle: it either yields a response
(status code and final URL after redirects) or raises with some error
text.  `call_url` wraps it in `try/except Exception`. -/

/-- Outcome of the underlying `requests.get` call. -/
inductive HttpOutcome where
  | success (status : Nat) (finalUrl : String)
  | failure (errText : String)
deriving DecidableEq

/-- `call_url` (`src/app.py:114-122`): on a response return
`(True, r.status_code, r.url)`; on any exception return
`(False, None, str(e))`. -/
def call_url (o : HttpOutcome) : Bool × Option Nat × String :=
  match o with
  | HttpOutcome.success s f => (true, some s, f)
  | HttpOutcome.failure e => (false, none, e)

/-! ## `process_one_message` (`src/app.py` lines 140-159) -/

/-- Python `str(x)` for `x : int | None` (the status code slot of the
result string). -/
def pyShowOptNat : Option Nat → String
  | none => "None"
  | some n => toString n

/-- Externally visible effects of `process_one_message`. -/
inductive Effect where
  | markProcessed
  | httpGet (url : String)
deriving DecidableEq, Repr

/-- Oracle inputs of one `process_one_message` call: the decoded body
(`fetch_message_html` result; `none` for no decodable body) and the
HTTP outcome of the single `call_url` it may make. -/
structure MsgEnv where
  body : Option Html
  http : HttpOutcome

/-- The link choice of `process_one_message` (`src/app.py:149-155`):
the first link containing `/email/click/` (case-insensitive), else the
first link. -/
def chosen_link (links : List String) : String :=
  match links.find? (fun l => strContains (pyLower l) "/email/click/") with
  | some l => l
  | none => links.headI

/-- `process_one_message` (`src/app.py:140-159`): no body → mark and
fail `no-body`; no candidate link → mark and fail `no-link`; otherwise
pick the first link containing `/email/click/` (else the first link),
decode its target, GET it, mark, and report
`status=...,final=...`.  Returns the result together with the list of
effects in the order performed. -/
def process_one_message (env : MsgEnv) : (Bool × String) × List Effect :=
  match env.body with
  | none => ((false, "no-body"), [Effect.markProcessed])
  | some h =>
    if h.text = "" then ((false, "no-body"), [Effect.markProcessed])
    else
      let links := extract_confirm_links h
      if links = [] then ((false, "no-link"), [Effect.markProcessed])
      else
        let target := decode_target_from_href (chosen_link links)
        let r := call_url env.http
        ((r.1, "status=" ++ pyShowOptNat r.2.1 ++ ",final=" ++ r.2.2),
         [Effect.httpGet target, Effect.markProcessed])

/-! ## `mark_message_processed` (`src/app.py` lines 124-138)

Each IMAP primitive is an oracle that either succeeds or raises; the
model records every attempted call and replays the `try/except`
structure of the code in an exception monad over a trace state. -/

/-- The IMAP calls `mark_message_processed` can attempt. -/
inductive ImapAct where
  | storeSeen | storeAnswered | listFolders | createFolder
  | copyMsg | storeDeleted | expunge
deriving DecidableEq, Repr

/-- Oracle for one `mark_message_processed` call: which primitive
calls raise, whether the `typ` the COPY returns (when it does not
raise) equals `'OK'`, and whether a processed folder is configured
(`PROCESSED_FOLDER` is a non-empty string). -/
structure MarkEnv where
  folderConfigured : Bool
  seenFails : Bool
  answeredFails : Bool
  listFails : Bool
  createFails : Bool
  copyFails : Bool
  copyOk : Bool
  deleteFails : Bool
  expungeFails : Bool
deriving DecidableEq

/-- Exception monad over the trace of attempted IMAP calls. -/
abbrev ImapM := ExceptT String (StateM (List ImapAct))

/-- One IMAP primitive: record the attempt, then raise when the oracle
says it fails. -/
def imapCall (a : ImapAct) (fails : Bool) : ImapM Unit := do
  modify (fun tr => tr ++ [a])
  if fails then throw "imap error" else pure ()

/-- `ensure_folder` (`src/app.py:40-45`): `list` then `create`,
swallowing any exception. -/
def ensure_folder (env : MarkEnv) : ImapM Unit :=
  tryCatch
    (do imapCall ImapAct.listFolders env.listFails
        imapCall ImapAct.createFolder env.createFails)
    (fun _ => pure ())

/-- `mark_message_processed` (`src/app.py:124-138`): store `\Seen` and
`\Answered`; when a processed folder is configured, ensure it exists,
COPY the message there, and only when COPY answers `OK` flag the
original `\Deleted` and expunge — all folder work inside its own
`try/except: pass`, and the whole body inside another. -/
def mark_message_processed (env : MarkEnv) : ImapM Unit :=
  tryCatch
    (do
      imapCall ImapAct.storeSeen env.seenFails
      imapCall ImapAct.storeAnswered env.answeredFails
      if env.folderConfigured then
        tryCatch
          (do
            ensure_folder env
            imapCall ImapAct.copyMsg env.copyFails
            if env.copyOk then do
              imapCall ImapAct.storeDeleted env.deleteFails
              imapCall ImapAct.expunge env.expungeFails
            else pure ())
          (fun _ => pure ())
      else pure ())
    (fun _ => pure ())

/-- Run `mark_message_processed` on the empty trace: the returned
value (normal return or uncaught exception) and the calls attempted. -/
def markRun (env : MarkEnv) : Except String Unit × List ImapAct :=
  ((mark_message_processed env).run).run []

/-! ## `worker_loop` (`src/app.py` lines 161-205), as a step machine

One step is one observable action block of the loop; the oracle `WEnv`
answers, for the step, the stop-flag read, the connect outcome, the
unseen-listing outcome and the per-message processing outcome. -/

/-- The `last_result` record (`src/app.py:193`). -/
structure LastResult where
  uid : String
  ok : Bool
  info : String
  ts : Nat
deriving DecidableEq

/-- The `_worker_status` dictionary (`src/app.py:29`). -/
structure WStatus where
  running : Bool
  processed_count : Nat
  last_result : Option LastResult
deriving DecidableEq

/-- Control points of `worker_loop`. -/
inductive WPhase where
  /-- Line 165: about to attempt the initial connect. -/
  | connecting
  /-- Line 171: about to test the stop event at the top of the while loop. -/
  | loopTop
  /-- Line 173: about to call `get_unseen_uids`. -/
  | listing
  /-- Lines 187-197: inside the for loop with the given uids pending. -/
  | processing (pending : List String)
  /-- Lines 199-205: the `finally` block has run; the loop has exited. -/
  | stopped
deriving DecidableEq

/-- Observable actions of a step. -/
inductive WAct where
  | connectAttempt | logout | sleepFive | sleepPoll | sleepHalf
  | handleMsg (uid : String)
deriving DecidableEq

/-- Oracle answers for one step. -/
structure WEnv where
  stop : Bool
  connectOk : Bool
  listResult : Option (List String)
  procResult : Option (Bool × String)
  now : Nat

/-- Machine state: control point plus the shared status dictionary. -/
structure WState where
  phase : WPhase
  status : WStatus
deriving DecidableEq

/-- Entry into `worker_loop` (`src/app.py:161-163`): set
`running = True` and head for the initial connect. -/
def worker_start (st : WStatus) : WState :=
  ⟨WPhase.connecting, { st with running := true }⟩

/-- One step of `worker_loop` (`src/app.py:161-205`). -/
def worker_step (s : WState) (env : WEnv) : WState × List WAct :=
  match s.phase with
  | WPhase.connecting =>
    -- lines 164-169: connect; on exception set running=False and return
    if env.connectOk then
      ({ s with phase := WPhase.loopTop }, [WAct.connectAttempt])
    else
      (⟨WPhase.stopped, { s.status with running := false }⟩,
       [WAct.connectAttempt])
  | WPhase.loopTop =>
    -- line 171 / 199-205: stop test; on stop run the finally block
    if env.stop then
      (⟨WPhase.stopped, { s.status with running := false }⟩, [WAct.logout])
    else
      ({ s with phase := WPhase.listing }, [])
  | WPhase.listing =>
    -- lines 172-185
    match env.listResult with
    | some uids => ({ s with phase := WPhase.processing uids }, [])
    | none =>
      -- listing raised: logout, sleep 5, reconnect; on reconnect
      -- failure sleep one poll interval; in both cases `continue`
      if env.connectOk then
        ({ s with phase := WPhase.loopTop },
         [WAct.logout, WAct.sleepFive, WAct.connectAttempt])
      else
        ({ s with phase := WPhase.loopTop },
         [WAct.logout, WAct.sleepFive, WAct.connectAttempt, WAct.sleepPoll])
  | WPhase.processing [] =>
    -- for loop done (or no uids): sleep the poll interval, loop again
    ({ s with phase := WPhase.loopTop }, [WAct.sleepPoll])
  | WPhase.processing (uid :: rest) =>
    -- lines 188-197
    if env.stop then
      -- break out of the for loop (then line 198 sleeps)
      ({ s with phase := WPhase.processing [] }, [])
    else
      match env.procResult with
      | some r =>
        ({ s with phase := WPhase.processing rest,
                  status := { s.status with
                    processed_count := s.status.processed_count + 1,
                    last_result := some ⟨uid, r.1, r.2, env.now⟩ } },
         [WAct.handleMsg uid, WAct.sleepHalf])
      | none =>
        -- processing raised: logged, loop continues with the next uid
        ({ s with phase := WPhase.processing rest }, [WAct.handleMsg uid])
  | WPhase.stopped => (s, [])

/-- Run the machine over a list of per-step oracles. -/
def worker_run (s : WState) : List WEnv → WState
  | [] => s
  | e :: es => worker_run (worker_step s e).1 es

/-! ## Theorems -/

/-- `unquoteList` maps a non-empty character list to a non-empty one. -/
theorem unquoteList_ne_nil : ∀ {l : List Char}, l ≠ [] → unquoteList l ≠ [] := by
  intro l h
  rw [unquoteList.eq_def]
  split
  · split <;> simp
  · simp
  · simp_all

/-- Every value `parse_qsl` returns is non-empty (blank values are
dropped, and unquoting preserves non-emptiness). -/
theorem parse_qsl_value_ne_empty {q : String} {p : String × String}
    (hp : p ∈ parse_qsl q) : p.2 ≠ "" := by
  unfold parse_qsl at hp
  rw [List.mem_filterMap] at hp
  obtain ⟨nv, -, hnv⟩ := hp
  by_cases h1 : nv = "" <;> simp only [h1, if_true, if_false] at hnv
  · exact absurd hnv (by simp)
  · revert hnv
    match hbr : breakAt '=' nv.toList with
    | none => intro hnv; exact absurd hnv (by simp)
    | some (n, v) =>
      intro hnv
      by_cases h2 : v = [] <;> simp only [h2, if_true, if_false] at hnv
      · exact absurd hnv (by simp)
      · have hp2 : p.2 = unquote (plusToSpace (String.mk v)) := by
          obtain rfl := Option.some.inj hnv; rfl
        rw [hp2]
        unfold unquote plusToSpace
        intro hc
        have hz : unquoteList
            (String.mk (v.map fun c => if c = '+' then ' ' else c)).toList = [] := by
          simpa [String.ext_iff] using hc
        have hne :
            (String.mk (v.map fun c => if c = '+' then ' ' else c)).toList ≠ [] := by
          simpa using h2
        exact unquoteList_ne_nil hne hz

/-- The decode loop applies `unquote` some `k ≤ n` times, and when it
stops early the result is an `unquote` fixed point. -/
theorem unquoteIter_spec : ∀ (n : Nat) (t : String),
    ∃ k ≤ n, unquoteIter n t = unquote^[k] t ∧
      (k < n → unquote (unquoteIter n t) = unquoteIter n t) := by
  intro n
  induction n with
  | zero => intro t; exact ⟨0, le_refl 0, rfl, by omega⟩
  | succ m ih =>
    intro t
    by_cases hfix : unquote t = t
    · refine ⟨0, Nat.zero_le _, ?_, ?_⟩
      · simp [unquoteIter, hfix]
      · intro _; simp [unquoteIter, hfix]
    · obtain ⟨k, hk, heq, hfp⟩ := ih (unquote t)
      refine ⟨k + 1, by omega, ?_, ?_⟩
      · simp only [unquoteIter, if_neg hfix]
        rw [heq, Function.iterate_succ_apply]
      · intro hlt
        simp only [unquoteIter, if_neg hfix]
        exact hfp (by omega)

/-- A value `unquote` leaves unchanged passes through the decode loop
unchanged (the first pass is a no-op and the loop breaks). -/
theorem unquoteIter_fixed {t : String} (h : unquote t = t) :
    ∀ n, unquoteIter n t = t := by
  intro n; cases n with
  | zero => rfl
  | succ m => simp [unquoteIter, h]

/-- C1: `decode_target_from_href` returns the input unchanged on a
parse error or when the query has no (non-blank) `target` parameter;
when the first `target` value `v` is found, `v` is non-empty, the
result is the decode loop on `v`, that loop applies at most 4 `unquote`
passes stopping at the first no-op pass, and a `v` on which `unquote`
is a no-op comes back unchanged after that single pass. -/
theorem decode_target_from_href_spec (href : String) :
    (∀ e, urlparseQuery href = Except.error e →
       decode_target_from_href href = href) ∧
    (∀ q, urlparseQuery href = Except.ok q →
       firstValueOf (parse_qsl q) "target" = none →
       decode_target_from_href href = href) ∧
    (∀ q v, urlparseQuery href = Except.ok q →
       firstValueOf (parse_qsl q) "target" = some v →
       v ≠ "" ∧
       decode_target_from_href href = unquoteIter 4 v ∧
       (∃ k ≤ 4, decode_target_from_href href = unquote^[k] v ∧
         (k < 4 → unquote (decode_target_from_href href) =
            decode_target_from_href href)) ∧
       (unquote v = v → decode_target_from_href href = v)) := by
  refine ⟨?_, ?_, ?_⟩
  · intro e he; unfold decode_target_from_href; rw [he]
  · intro q hq hnone; unfold decode_target_from_href; rw [hq]; simp [hnone]
  · intro q v hq hv
    have hdec : decode_target_from_href href = unquoteIter 4 v := by
      unfold decode_target_from_href; rw [hq]; simp [hv]
    have hvne : v ≠ "" := by
      obtain ⟨p, hfind, hpv⟩ := Option.map_eq_some'.mp hv
      have hmem := List.mem_of_find?_eq_some hfind
      exact hpv ▸ parse_qsl_value_ne_empty hmem
    obtain ⟨k, hk, heq, hfp⟩ := unquoteIter_spec 4 v
    refine ⟨hvne, hdec,
      ⟨k, hk, by rw [hdec, heq], fun hlt => by rw [hdec]; exact hfp hlt⟩, ?_⟩
    intro hfix; rw [hdec, unquoteIter_fixed hfix]

/-- C1 witness: a singly percent-encoded `target` is recovered; the
second pass is a no-op, so the loop stops there. -/
theorem decode_target_from_href_spec_witness :
    decode_target_from_href
        "https://x.test/email/click/?target=https%3A%2F%2Fconfirm.test%2Fc%2F1" =
      "https://confirm.test/c/1" := by
  have h := (decode_target_from_href_spec
      "https://x.test/email/click/?target=https%3A%2F%2Fconfirm.test%2Fc%2F1").2.2
      "target=https%3A%2F%2Fconfirm.test%2Fc%2F1" "https://confirm.test/c/1"
      (by rfl) (by rfl)
  exact h.2.2.2 (by rfl)

/-- C3: when some anchor href passes the case-insensitive
marker-or-keyword test, `extract_confirm_links` is exactly the filter
of the anchor hrefs by that test, in document order with no
deduplication; in particular any anchor href containing the marker
`/email/click/` is in the output. -/
theorem extract_anchor_spec (h : Html) (hwf : h.wf) :
    (h.anchors.filter anchorTest ≠ [] →
       extract_confirm_links h = h.anchors.filter anchorTest) ∧
    (∀ href ∈ h.anchors,
       (strContains (pyLower href) "/email/click/" = true ∨
        ∃ k ∈ ["confirm", "verify", "autologin", "activate"],
          strContains (pyLower href) k = true) →
       href ∈ extract_confirm_links h) := by
  have hmain : h.anchors.filter anchorTest ≠ [] →
      extract_confirm_links h = h.anchors.filter anchorTest := by
    intro hne
    have hanch : h.anchors ≠ [] := by
      intro hz; rw [hz] at hne; exact hne rfl
    have htext : h.text ≠ "" := fun hz => hanch (hwf hz)
    unfold extract_confirm_links
    rw [if_neg htext, if_neg hne]
  refine ⟨hmain, ?_⟩
  intro href hmem htest
  have ht : anchorTest href = true := by
    unfold anchorTest
    rcases htest with h1 | ⟨k, hk, h2⟩
    · simp [h1]
    · simp only [Bool.decide_or, Bool.or_eq_true, decide_eq_true_eq]
      right
      rw [List.any_eq_true]
      exact ⟨k, hk, h2⟩
  have hmemf : href ∈ h.anchors.filter anchorTest := List.mem_filter.mpr ⟨hmem, ht⟩
  rw [hmain (List.ne_nil_of_mem hmemf)]
  exact hmemf

/-- C3 witness: an anchor href carrying the marker is collected from a
two-anchor document. -/
theorem extract_anchor_spec_witness :
    "https://x.test/email/click/?target=a" ∈
      extract_confirm_links
        ⟨["https://x.test/unsub", "https://x.test/email/click/?target=a"], "body"⟩ := by
  refine (extract_anchor_spec
      ⟨["https://x.test/unsub", "https://x.test/email/click/?target=a"], "body"⟩
      (by intro hz; exact absurd hz (by decide))).2
      "https://x.test/email/click/?target=a" (by decide) (Or.inl (by decide))

/-- C2 counterexample: the fallback scan does NOT apply the same
keyword test as the anchor scan — its keyword tuple omits `activate`
(`src/app.py:93` vs `src/app.py:87`).  A document with no anchors whose
text holds a bare URL containing `activate` (which the anchor test
accepts) produces no links at all. -/
theorem extract_fallback_activate_cex :
    anchorTest "https://pin.test/activate/ab" = true ∧
    (⟨[], "go https://pin.test/activate/ab now"⟩ : Html).anchors.filter anchorTest = [] ∧
    findUrls "go https://pin.test/activate/ab now" = ["https://pin.test/activate/ab"] ∧
    extract_confirm_links ⟨[], "go https://pin.test/activate/ab now"⟩ = [] := by
  exact ⟨by rfl, by rfl, by rfl, by rfl⟩

/-- C2 (amended): with no qualifying anchor and non-empty text,
`extract_confirm_links` is the bare URLs of the raw text filtered by
the fallback test (marker or one of `confirm`, `verify`, `autologin` —
without `activate`); any bare URL passing that test is returned. -/
theorem extract_fallback_spec (h : Html) (hne : h.text ≠ "")
    (hanch : h.anchors.filter anchorTest = []) :
    extract_confirm_links h = (findUrls h.text).filter bareUrlTest ∧
    (∀ url ∈ findUrls h.text, bareUrlTest url = true →
       url ∈ extract_confirm_links h) := by
  have hmain : extract_confirm_links h = (findUrls h.text).filter bareUrlTest := by
    unfold extract_confirm_links
    rw [if_neg hne, if_pos hanch]
  refine ⟨hmain, ?_⟩
  intro url hmem htest
  rw [hmain]
  exact List.mem_filter.mpr ⟨hmem, htest⟩

/-- C2 witness: with no qualifying anchor, a bare `verify` URL in the
text is returned by the fallback. -/
theorem extract_fallback_spec_witness :
    "https://z.test/verify" ∈
      extract_confirm_links ⟨["https://z.test/plain"], "go https://z.test/verify now"⟩ := by
  exact (extract_fallback_spec
      ⟨["https://z.test/plain"], "go https://z.test/verify now"⟩
      (by decide) (by rfl)).2 "https://z.test/verify" (by decide) (by rfl)

/-- C4: a message without a decodable body is marked processed,
reported as the failure `(False, 'no-body')`, and no HTTP fetch is
issued. -/
theorem process_no_body_spec (env : MsgEnv) (hb : env.body = none) :
    (process_one_message env).1 = (false, "no-body") ∧
    Effect.markProcessed ∈ (process_one_message env).2 ∧
    (∀ u, Effect.httpGet u ∉ (process_one_message env).2) := by
  unfold process_one_message
  rw [hb]
  refine ⟨rfl, by simp, ?_⟩
  intro u hmem
  simp at hmem

/-- C4 witness: the no-body path at a concrete environment. -/
theorem process_no_body_spec_witness :
    (process_one_message ⟨none, HttpOutcome.failure "down"⟩).1 = (false, "no-body") ∧
    Effect.markProcessed ∈ (process_one_message ⟨none, HttpOutcome.failure "down"⟩).2 ∧
    (∀ u, Effect.httpGet u ∉ (process_one_message ⟨none, HttpOutcome.failure "down"⟩).2) :=
  process_no_body_spec ⟨none, HttpOutcome.failure "down"⟩ rfl

/-- C7: `call_url` never raises: it returns
`(True, status, final URL)` when the GET yields a response and
`(False, None, error text)` when it raises. -/
theorem call_url_spec (o : HttpOutcome) :
    (∀ s u, o = HttpOutcome.success s u → call_url o = (true, some s, u)) ∧
    (∀ e, o = HttpOutcome.failure e → call_url o = (false, none, e)) := by
  cases o with
  | success s u =>
    refine ⟨?_, ?_⟩
    · intro s2 u2 he; cases he; rfl
    · intro e he; cases he
  | failure e =>
    refine ⟨?_, ?_⟩
    · intro s2 u2 he; cases he
    · intro e2 he; cases he; rfl

/-- C7 witness: both outcome shapes at concrete inputs. -/
theorem call_url_spec_witness :
    call_url (HttpOutcome.success 200 "https://final.test/") =
        (true, some 200, "https://final.test/") ∧
    call_url (HttpOutcome.failure "timeout") = (false, none, "timeout") :=
  ⟨(call_url_spec (HttpOutcome.success 200 "https://final.test/")).1 200
      "https://final.test/" rfl,
   (call_url_spec (HttpOutcome.failure "timeout")).2 "timeout" rfl⟩
/-- `List.find?` returns the first element satisfying the predicate:
everything before it in the list fails the predicate. -/
theorem find?_first {α : Type} (p : α → Bool) :
    ∀ {l : List α} {a : α}, l.find? p = some a →
      ∃ pre post, l = pre ++ a :: post ∧ ∀ x ∈ pre, p x = false := by
  intro l
  induction l with
  | nil => intro a h; simp at h
  | cons x xs ih =>
    intro a h
    by_cases hx : p x = true
    · rw [List.find?_cons_of_pos _ hx] at h
      obtain rfl := Option.some.inj h
      exact ⟨[], xs, rfl, by simp⟩
    · rw [List.find?_cons_of_neg _ hx] at h
      obtain ⟨pre, post, heq, hall⟩ := ih h
      refine ⟨x :: pre, post, by rw [heq]; rfl, ?_⟩
      intro y hy
      rcases List.mem_cons.mp hy with rfl | hy2
      · simpa using hx
      · exact hall y hy2

/-- C9: for a message with a non-empty candidate list,
`process_one_message` fetches the decode of `chosen_link links`, which
is the first candidate containing `/email/click/` (case-insensitively)
when one exists and the first candidate otherwise. -/
theorem process_chosen_link_spec (env : MsgEnv) (h : Html)
    (hb : env.body = some h) (hne : h.text ≠ "")
    (hlinks : extract_confirm_links h ≠ []) :
    (process_one_message env).2 =
      [Effect.httpGet (decode_target_from_href (chosen_link (extract_confirm_links h))),
       Effect.markProcessed] ∧
    (∀ l, (extract_confirm_links h).find?
        (fun l => strContains (pyLower l) "/email/click/") = some l →
      chosen_link (extract_confirm_links h) = l ∧
      strContains (pyLower l) "/email/click/" = true ∧
      ∃ pre post, extract_confirm_links h = pre ++ l :: post ∧
        ∀ x ∈ pre, strContains (pyLower x) "/email/click/" = false) ∧
    ((extract_confirm_links h).find?
        (fun l => strContains (pyLower l) "/email/click/") = none →
      chosen_link (extract_confirm_links h) = (extract_confirm_links h).headI ∧
      ∀ l ∈ extract_confirm_links h,
        strContains (pyLower l) "/email/click/" = false) := by
  refine ⟨?_, ?_, ?_⟩
  · unfold process_one_message
    rw [hb]
    simp only [if_neg hne, if_neg hlinks]
  · intro l hfind
    have hp : strContains (pyLower l) "/email/click/" = true := by
      have := List.find?_some hfind
      simpa using this
    exact ⟨by unfold chosen_link; rw [hfind], hp, find?_first _ hfind⟩
  · intro hfind
    refine ⟨by unfold chosen_link; rw [hfind], ?_⟩
    intro l hl
    have := List.find?_eq_none.mp hfind l hl
    simpa using this

/-- C9 witness: with a keyword link first and a marker link second,
the marker link is chosen and fetched. -/
theorem process_chosen_link_spec_witness :
    (process_one_message
        ⟨some ⟨["https://a.test/confirm", "https://b.test/email/click/?target=x"], "t"⟩,
         HttpOutcome.success 200 "u"⟩).2 =
      [Effect.httpGet
         (decode_target_from_href
           (chosen_link (extract_confirm_links
             ⟨["https://a.test/confirm", "https://b.test/email/click/?target=x"], "t"⟩))),
       Effect.markProcessed] ∧
    chosen_link (extract_confirm_links
        ⟨["https://a.test/confirm", "https://b.test/email/click/?target=x"], "t"⟩) =
      "https://b.test/email/click/?target=x" := by
  have hs := process_chosen_link_spec
    ⟨some ⟨["https://a.test/confirm", "https://b.test/email/click/?target=x"], "t"⟩, HttpOutcome.success 200 "u"⟩
    ⟨["https://a.test/confirm", "https://b.test/email/click/?target=x"], "t"⟩
    rfl (by decide) (by decide)
  exact ⟨hs.1, (hs.2.1 "https://b.test/email/click/?target=x" (by rfl)).1⟩

/-- C10: `mark_message_processed` never lets an exception escape (the
run always returns normally), and the `\\Deleted` flagging and the
expunge are attempted only when the COPY neither raised nor answered
other than `OK` (expunge additionally requires the flagging not to
raise). -/
theorem mark_message_processed_spec :
    ∀ env : MarkEnv,
      (markRun env).1.isOk = true ∧
      (ImapAct.storeDeleted ∈ (markRun env).2 →
         env.copyFails = false ∧ env.copyOk = true) ∧
      (ImapAct.expunge ∈ (markRun env).2 →
         env.copyFails = false ∧ env.copyOk = true ∧ env.deleteFails = false) := by
  intro env
  obtain ⟨fc, sf, af, lf, cr, cf, co, df, ef⟩ := env
  cases fc <;> cases sf <;> cases af <;> cases lf <;> cases cr <;>
    cases cf <;> cases co <;> cases df <;> cases ef <;> decide

/-- C10 witness: on the all-successful run the delete is attempted, and
the theorem instantiated there recovers that the copy succeeded. -/
theorem mark_message_processed_spec_witness :
    (⟨true, false, false, false, false, false, true, false, false⟩ :
        MarkEnv).copyFails = false ∧
    (⟨true, false, false, false, false, false, true, false, false⟩ :
        MarkEnv).copyOk = true :=
  (mark_message_processed_spec
      ⟨true, false, false, false, false, false, true, false, false⟩).2.1
    (by decide)

/-- C5: when the initial connect attempt fails, the loop exits at once
(single connect attempt, no retry) with the running flag set to
`false`; the only other way a step reaches the terminal phase is the
stop signal read at the top of the while loop, and the terminal phase
is absorbing with no further actions. -/
theorem worker_connect_failure_spec :
    (∀ s env, s.phase = WPhase.connecting → env.connectOk = false →
       (worker_step s env).1.phase = WPhase.stopped ∧
       (worker_step s env).1.status.running = false ∧
       (worker_step s env).2 = [WAct.connectAttempt]) ∧
    (∀ s env, (worker_step s env).1.phase = WPhase.stopped →
       s.phase = WPhase.stopped ∨
       (s.phase = WPhase.connecting ∧ env.connectOk = false) ∨
       (s.phase = WPhase.loopTop ∧ env.stop = true)) ∧
    (∀ s env, s.phase = WPhase.stopped → worker_step s env = (s, [])) := by
  refine ⟨?_, ?_, ?_⟩
  · intro s env hph hco
    obtain ⟨ph, st⟩ := s
    subst hph
    simp [worker_step, hco]
  · intro s env hstop
    obtain ⟨ph, st⟩ := s
    cases ph with
    | connecting =>
      by_cases hc : env.connectOk <;> simp_all [worker_step]
    | loopTop =>
      by_cases hs : env.stop <;> simp_all [worker_step]
    | listing =>
      cases hl : env.listResult <;> by_cases hc : env.connectOk <;>
        simp_all [worker_step]
    | processing pending =>
      cases pending with
      | nil => simp_all [worker_step]
      | cons u rest =>
        by_cases hs : env.stop
        · simp_all [worker_step]
        · cases hp : env.procResult <;> simp_all [worker_step]
    | stopped => simp_all [worker_step]
  · intro s env hph
    obtain ⟨ph, st⟩ := s
    subst hph
    simp [worker_step]
/-- C5 witness: the connect-failure step at a concrete state. -/
theorem worker_connect_failure_spec_witness :
    (worker_step (worker_start ⟨false, 0, none⟩)
        ⟨false, false, none, none, 0⟩).1.phase = WPhase.stopped ∧
    (worker_step (worker_start ⟨false, 0, none⟩)
        ⟨false, false, none, none, 0⟩).1.status.running = false ∧
    (worker_step (worker_start ⟨false, 0, none⟩)
        ⟨false, false, none, none, 0⟩).2 = [WAct.connectAttempt] :=
  worker_connect_failure_spec.1 (worker_start ⟨false, 0, none⟩)
    ⟨false, false, none, none, 0⟩ rfl rfl

/-- C6: a failed unseen-listing never stops the loop: the step logs
out, sleeps 5 seconds, attempts a reconnect (sleeping one poll
interval more when the reconnect fails), returns to the top of the
loop and leaves the status untouched; moreover from any in-loop phase,
while the stop flag reads false, the machine stays in the loop with
its running flag unchanged. -/
theorem worker_list_failure_spec :
    (∀ s env, s.phase = WPhase.listing → env.listResult = none →
       (worker_step s env).1.phase = WPhase.loopTop ∧
       (worker_step s env).1.status = s.status ∧
       (worker_step s env).2 =
         [WAct.logout, WAct.sleepFive, WAct.connectAttempt] ++
           (if env.connectOk then [] else [WAct.sleepPoll])) ∧
    (∀ s env, env.stop = false →
       (s.phase = WPhase.loopTop ∨ s.phase = WPhase.listing ∨
        ∃ l, s.phase = WPhase.processing l) →
       ((worker_step s env).1.phase = WPhase.loopTop ∨
        (worker_step s env).1.phase = WPhase.listing ∨
        ∃ l, (worker_step s env).1.phase = WPhase.processing l) ∧
       (worker_step s env).1.status.running = s.status.running) := by
  refine ⟨?_, ?_⟩
  · intro s env hph hl
    obtain ⟨ph, st⟩ := s
    subst hph
    by_cases hc : env.connectOk <;> simp [worker_step, hl, hc]
  · intro s env hstop hph
    obtain ⟨ph, st⟩ := s
    rcases hph with h | h | ⟨l, h⟩ <;> subst h
    · simp [worker_step, hstop]
    · cases hl : env.listResult <;> by_cases hc : env.connectOk <;>
        simp [worker_step, hl, hc]
    · cases l with
      | nil => simp [worker_step]
      | cons u rest =>
        by_cases hs : env.stop
        · simp_all
        · cases hp : env.procResult <;> simp [worker_step, hs, hp]

/-- C6 witness: the listing-failure step with a successful
reconnect. -/
theorem worker_list_failure_spec_witness :
    (worker_step ⟨WPhase.listing, ⟨true, 3, none⟩⟩
        ⟨false, true, none, none, 7⟩).1.phase = WPhase.loopTop ∧
    (worker_step ⟨WPhase.listing, ⟨true, 3, none⟩⟩
        ⟨false, true, none, none, 7⟩).1.status = (⟨true, 3, none⟩ : WStatus) ∧
    (worker_step ⟨WPhase.listing, ⟨true, 3, none⟩⟩
        ⟨false, true, none, none, 7⟩).2 =
      [WAct.logout, WAct.sleepFive, WAct.connectAttempt] ++
        (if (⟨false, true, none, none, 7⟩ : WEnv).connectOk then []
         else [WAct.sleepPoll]) :=
  (worker_list_failure_spec).1 ⟨WPhase.listing, ⟨true, 3, none⟩⟩
    ⟨false, true, none, none, 7⟩ rfl rfl

/-- C8: every step leaves `processed_count` unchanged or increments
it by exactly one, an increment happens only on a successfully
processed message, and over any run the counter is monotonically
non-decreasing. -/
theorem worker_processed_count_spec :
    (∀ s env,
       ((worker_step s env).1.status.processed_count = s.status.processed_count ∨
        (worker_step s env).1.status.processed_count =
          s.status.processed_count + 1) ∧
       ((worker_step s env).1.status.processed_count =
           s.status.processed_count + 1 →
         ∃ uid rest r, s.phase = WPhase.processing (uid :: rest) ∧
           env.stop = false ∧ env.procResult = some r)) ∧
    (∀ s envs,
       s.status.processed_count ≤ (worker_run s envs).status.processed_count) := by
  have hstep : ∀ s env,
      ((worker_step s env).1.status.processed_count = s.status.processed_count ∨
       (worker_step s env).1.status.processed_count =
         s.status.processed_count + 1) ∧
      ((worker_step s env).1.status.processed_count =
          s.status.processed_count + 1 →
        ∃ uid rest r, s.phase = WPhase.processing (uid :: rest) ∧
          env.stop = false ∧ env.procResult = some r) := by
    intro s env
    obtain ⟨ph, st⟩ := s
    cases ph with
    | connecting => by_cases hc : env.connectOk <;> simp [worker_step, hc]
    | loopTop => by_cases hs : env.stop <;> simp [worker_step, hs]
    | listing =>
      cases hl : env.listResult <;> by_cases hc : env.connectOk <;>
        simp [worker_step, hl, hc]
    | processing pending =>
      cases pending with
      | nil => simp [worker_step]
      | cons u rest =>
        by_cases hs : env.stop
        · simp [worker_step, hs]
        · cases hp : env.procResult with
          | none => simp [worker_step, hs, hp]
          | some r => simp [worker_step, hs, hp]
    | stopped => simp [worker_step]
  refine ⟨hstep, ?_⟩
  intro s envs
  induction envs generalizing s with
  | nil => simp [worker_run]
  | cons e es ih =>
    have h1 := (hstep s e).1
    have h2 := ih (worker_step s e).1
    calc s.status.processed_count
        ≤ (worker_step s e).1.status.processed_count := by omega
      _ ≤ (worker_run (worker_step s e).1 es).status.processed_count := h2
      _ = (worker_run s (e :: es)).status.processed_count := rfl

/-- C8 witness: the increment case of the step dichotomy at a
concrete processing state. -/
theorem worker_processed_count_spec_witness :
    ∃ uid rest r,
      (⟨WPhase.processing ["5"], ⟨true, 2, none⟩⟩ : WState).phase =
        WPhase.processing (uid :: rest) ∧
      (⟨false, true, some [], some (true, "ok"), 9⟩ : WEnv).stop = false ∧
      (⟨false, true, some [], some (true, "ok"), 9⟩ : WEnv).procResult = some r :=
  ((worker_processed_count_spec).1 ⟨WPhase.processing ["5"], ⟨true, 2, none⟩⟩
      ⟨false, true, some [], some (true, "ok"), 9⟩).2 (by decide)

end AutoConfirm
